import Mathlib

/-
Verification development for the live market-data pipeline of a
stock-portfolio dashboard.  The TypeScript sources are embedded shallowly:
prices, delays and percentages are rationals, wall-clock instants are
integers, JavaScript `Map`s are association lists in insertion order, and
timers are booleans recording whether a handle is outstanding.  The `Date`
timestamp carried by emitted price updates and the `timestamp : Date`
field of categorized errors are omitted: no verified property mentions
them.
-/

namespace StockPortfolio

/-- JS `Math.max` on two arguments. -/
def jsMax (a b : ℚ) : ℚ := if a < b then b else a

/-- JS `Math.min` on two arguments. -/
def jsMin (a b : ℚ) : ℚ := if b < a then b else a

theorem jsMax_eq_max (a b : ℚ) : jsMax a b = max a b := by
  unfold jsMax
  rcases lt_or_ge a b with h | h
  · simp [h, max_eq_right h.le]
  · simp [not_lt.mpr h, max_eq_left h]

theorem jsMin_eq_min (a b : ℚ) : jsMin a b = min a b := by
  unfold jsMin
  rcases lt_or_ge b a with h | h
  · simp [h, min_eq_right h.le]
  · simp [not_lt.mpr h, min_eq_left h]

/-- JS `ApiErrorHandler.validatePercentage`: clamp the value to the closed
interval [-100, 100].  (`validateNumber` is the identity on the finite
numeric inputs modelled here, so it is inlined.) -/
def validatePercentage (value : ℚ) : ℚ := jsMax (-100) (jsMin 100 value)

/-- JS `ApiErrorHandler.validateCurrency`: clamp the value below at 0. -/
def validateCurrency (value : ℚ) : ℚ := jsMax 0 value

/-- JS `ApiErrorHandler.calculatePercentageChange`: a zero prior maps to
100 when the new value is positive and to 0 otherwise; any other prior
yields the clamped relative change. -/
def calculatePercentageChange (oldValue newValue : ℚ) : ℚ :=
  if oldValue = 0 then (if 0 < newValue then 100 else 0)
  else validatePercentage ((newValue - oldValue) / oldValue * 100)

/-- An emitted price update (`PriceUpdate` without its `Date` field). -/
structure PriceUpdate where
  symbol : String
  price : ℚ
  change : ℚ
  changePercent : ℚ
deriving DecidableEq, Repr

/-- The detector's `previousPrices : Map<string, number>`, kept in
insertion order like a JS `Map`. -/
abbrev PriceMap := List (String × ℚ)

/-- JS `Map.get`. -/
def priceGet : PriceMap → String → Option ℚ
  | [], _ => none
  | (k, p) :: rest, s => if k = s then some p else priceGet rest s

/-- JS `Map.set`: overwriting an existing key keeps its position,
a new key is appended. -/
def priceSet : PriceMap → String → ℚ → PriceMap
  | [], s, p => [(s, p)]
  | (k, q) :: rest, s, p =>
      if k = s then (s, p) :: rest else (k, q) :: priceSet rest s p

/-- JS `previousPrice || currentPrice` where `previousPrice` is a
`number | undefined`: both `undefined` and `0` are falsy. -/
def jsOrElse (prior : Option ℚ) (current : ℚ) : ℚ :=
  match prior with
  | none => current
  | some p => if p = 0 then current else p

/-- One pass of the `updates.forEach` body of
`WebSocketService.handlePriceUpdate`: JS `previousPrice !== currentPrice`
gates emission (`undefined !== x` is always true), the conditional
`previousPrice ? calculatePercentageChange(previousPrice, currentPrice) : 0`
computes the percent change (so a falsy prior — absent or zero — yields 0),
and the price memory is written only on emission. -/
def handleOnePrice (m : PriceMap) (symbol : String) (rawPrice : ℚ) :
    PriceMap × Option PriceUpdate :=
  if priceGet m symbol = some (validateCurrency rawPrice) then (m, none)
  else
    (priceSet m symbol (validateCurrency rawPrice),
     some { symbol := symbol
            price := validateCurrency rawPrice
            change := validateCurrency rawPrice
                        - jsOrElse (priceGet m symbol) (validateCurrency rawPrice)
            changePercent :=
              match priceGet m symbol with
              | some p =>
                  if p = 0 then 0
                  else calculatePercentageChange p (validateCurrency rawPrice)
              | none => 0 })

/-- JS `WebSocketService.handlePriceUpdate` over a batch of raw
(symbol, price) observations, returning the updated price memory and the
emitted updates in detection order. -/
def handlePriceUpdate : PriceMap → List (String × ℚ) → PriceMap × List PriceUpdate
  | m, [] => (m, [])
  | m, (s, p) :: rest =>
    let this := handleOnePrice m s p
    let next := handlePriceUpdate this.1 rest
    (next.1, this.2.toList ++ next.2)

/-- Helper: `calculatePercentageChange` always lands in [-100, 100]. -/
theorem calculatePercentageChange_bounds (o n : ℚ) :
    -100 ≤ calculatePercentageChange o n ∧ calculatePercentageChange o n ≤ 100 := by
  unfold calculatePercentageChange validatePercentage
  rw [jsMax_eq_max, jsMin_eq_min]
  split
  · split <;> norm_num
  · constructor
    · exact le_max_left _ _
    · exact max_le (by norm_num) (min_le_left _ _)

/-- C1: with a remembered prior price of exactly 0, an incoming positive
quote (price 50) IS emitted, but with `changePercent = 0` and `change = 0`
(the falsy-prior guard bypasses `calculatePercentageChange`, whose own
zero-prior rule would give 100); an incoming quote of price 0 produces no
emission.  This theorem evaluates the embedded handler at both inputs. -/
theorem C1_priceDelta_zero_prior_eval :
    handlePriceUpdate [("X", 0)] [("X", 50)] = ([("X", 50)], [⟨"X", 50, 0, 0⟩])
    ∧ handlePriceUpdate [("X", 0)] [("X", 0)] = ([("X", 0)], []) := by
  constructor <;> with_unfolding_all decide

/-- C5: from prior price 100 and observations [100, 100, 101, 101, 99],
exactly two updates are emitted — (101, change 1, +1%) then
(99, change -2, -200/101 %) — each computed against the previously emitted
price, and the memory ends at the last emitted price 99. -/
theorem C5_priceDelta_dedup_sequence :
    handlePriceUpdate [("X", 100)]
        [("X", 100), ("X", 100), ("X", 101), ("X", 101), ("X", 99)]
      = ([("X", 99)], [⟨"X", 101, 1, 1⟩, ⟨"X", 99, -2, -200/101⟩]) := by
  with_unfolding_all decide

/-- C6: every update emitted by the delta-detection path has a
`changePercent` in the closed interval [-100, 100]. -/
theorem C6_priceDelta_changePercent_bounded :
    ∀ (m : PriceMap) (updates : List (String × ℚ)) (u : PriceUpdate),
      u ∈ (handlePriceUpdate m updates).2 →
      -100 ≤ u.changePercent ∧ u.changePercent ≤ 100 := by
  intro m updates
  induction updates generalizing m with
  | nil => intro u hu; simp [handlePriceUpdate] at hu
  | cons head rest ih =>
    intro u hu
    obtain ⟨s, p⟩ := head
    simp only [handlePriceUpdate, List.mem_append] at hu
    rcases hu with hu | hu
    · unfold handleOnePrice at hu
      split at hu
      · simp at hu
      · simp only [Option.toList_some, List.mem_singleton] at hu
        subst hu
        dsimp only
        split
        · split
          · norm_num
          · exact calculatePercentageChange_bounds _ _
        · norm_num
    · exact ih _ u hu

/-- Witness for C6 at a concrete input. -/
theorem C6_priceDelta_changePercent_bounded_w :
    (⟨"X", 101, 1, 1⟩ : PriceUpdate) ∈ (handlePriceUpdate [("X", 100)] [("X", 101)]).2
    ∧ (-100 ≤ (⟨"X", 101, 1, 1⟩ : PriceUpdate).changePercent
        ∧ (⟨"X", 101, 1, 1⟩ : PriceUpdate).changePercent ≤ 100) :=
  ⟨by with_unfolding_all decide,
   C6_priceDelta_changePercent_bounded [("X", 100)] [("X", 101)] ⟨"X", 101, 1, 1⟩
     (by with_unfolding_all decide)⟩

/-! ## Retry with backoff and error classification (`ApiErrorHandler`) -/

/-- A categorized API failure (`ApiError` without its `timestamp : Date`). -/
structure ApiError where
  message : String
  code : String
  status : Option Nat := none
  retryable : Bool
deriving DecidableEq, Repr

/-- Helper for JS `String.prototype.includes`: does the first character
list start with the second? -/
def charsStartWith : List Char → List Char → Bool
  | _, [] => true
  | [], _ :: _ => false
  | a :: as, b :: bs => a == b && charsStartWith as bs

/-- Helper for JS `String.prototype.includes` on character lists. -/
def charsInclude : List Char → List Char → Bool
  | [], sub => sub.isEmpty
  | hay@(_ :: rest), sub => charsStartWith hay sub || charsInclude rest sub

/-- JS `haystack.includes(needle)`. -/
def strIncludes (s sub : String) : Bool := charsInclude s.toList sub.toList

/-- JS `ApiErrorHandler.categorizeError` applied to an `Error` and keyed on
its message string (the `error instanceof Error` branch; the final
`error.message || \'An unexpected error occurred.\'` falls back on the empty
string, the only falsy string). -/
def categorizeError (message : String) : ApiError :=
  if strIncludes message "fetch" || strIncludes message "network" then
    { message := "Network connection failed. Please check your internet connection."
      code := "NETWORK_ERROR", retryable := true }
  else if strIncludes message "timeout" then
    { message := "Request timed out. Please try again."
      code := "TIMEOUT_ERROR", retryable := true }
  else if strIncludes message "429" || strIncludes message "rate limit" then
    { message := "Too many requests. Please wait a moment before trying again."
      code := "RATE_LIMIT_ERROR", status := some 429, retryable := true }
  else if strIncludes message "500" || strIncludes message "server" then
    { message := "Server error occurred. Please try again later."
      code := "SERVER_ERROR", status := some 500, retryable := true }
  else
    { message := if message = "" then "An unexpected error occurred." else message
      code := "UNKNOWN_ERROR", retryable := false }

/-- Model of `RetryConfig`. -/
structure RetryConfig where
  maxAttempts : Nat
  baseDelay : ℚ
  maxDelay : ℚ
  backoffMultiplier : ℚ
  jitter : Bool
deriving DecidableEq, Repr

/-- Model of `ApiErrorHandler.DEFAULT_RETRY_CONFIG`. -/
def DEFAULT_RETRY_CONFIG : RetryConfig :=
  { maxAttempts := 3, baseDelay := 1000, maxDelay := 10000
    backoffMultiplier := 2, jitter := true }

/-- Outcome of one invocation of the wrapped async `operation`. -/
inductive AttemptResult (α : Type) where
  | ok (value : α)
  | fail (message : String)
deriving DecidableEq, Repr

/-- The pre-jitter sleep computed after a retryable failure on attempt `n`:
`Math.min(baseDelay * Math.pow(backoffMultiplier, attempt - 1), maxDelay)`. -/
def backoffDelay (cfg : RetryConfig) (n : Nat) : ℚ :=
  jsMin (cfg.baseDelay * cfg.backoffMultiplier ^ (n - 1)) cfg.maxDelay

/-- The actually slept delay: `jitter ? delay + Math.random() * delay * 0.1
: delay`, with `r` the `Math.random()` sample (float `0.1` idealized as the
rational 1/10). -/
def jitteredDelay (cfg : RetryConfig) (r : ℚ) (d : ℚ) : ℚ :=
  if cfg.jitter then d + r * d * (1 / 10) else d

/-- JS `ApiErrorHandler.retryWithBackoff` from attempt number `n` on:
`outcomes k` is the result of the `k`-th invocation of `operation` and
`rand k` the `Math.random()` sample drawn before the sleep that follows
attempt `k`.  Returns the surfaced result and the list of sleeps performed,
in order.  The final-attempt guard `attempt === maxAttempts` is rendered
`maxAttempts ≤ n`, equivalent at every reachable attempt number (the loop
counts 1, 2, … and never passes `maxAttempts`). -/
def retryLoop {α : Type} (cfg : RetryConfig) (outcomes : Nat → AttemptResult α)
    (rand : Nat → ℚ) (n : Nat) : Except String α × List ℚ :=
  match outcomes n with
  | .ok v => (.ok v, [])
  | .fail e =>
    if cfg.maxAttempts ≤ n then (.error e, [])
    else if !(categorizeError e).retryable then (.error e, [])
    else
      let d := jitteredDelay cfg (rand n) (backoffDelay cfg n)
      let next := retryLoop cfg outcomes rand (n + 1)
      (next.1, d :: next.2)
termination_by cfg.maxAttempts - n
decreasing_by omega

/-- JS `ApiErrorHandler.retryWithBackoff`: the loop starts at attempt 1. -/
def retryWithBackoff {α : Type} (cfg : RetryConfig)
    (outcomes : Nat → AttemptResult α) (rand : Nat → ℚ) :
    Except String α × List ℚ :=
  retryLoop cfg outcomes rand 1

/-- Helper: the loop from attempt `n` sleeps at most `maxAttempts - n`
times, i.e. performs at most `maxAttempts` attempts overall. -/
theorem retryLoop_length_le {α : Type} (cfg : RetryConfig)
    (outcomes : Nat → AttemptResult α) (rand : Nat → ℚ) :
    ∀ (fuel n : Nat), cfg.maxAttempts - n ≤ fuel →
      (retryLoop cfg outcomes rand n).2.length ≤ cfg.maxAttempts - n := by
  intro fuel
  induction fuel with
  | zero =>
    intro n hn
    rw [retryLoop]
    rcases houtcome : outcomes n with v | e
    · simp
    · have hmax : cfg.maxAttempts ≤ n := by omega
      simp [hmax]
  | succ f ih =>
    intro n hn
    rw [retryLoop]
    rcases houtcome : outcomes n with v | e
    · simp
    · by_cases hmax : cfg.maxAttempts ≤ n
      · simp [hmax]
      · by_cases hr : (categorizeError e).retryable
        · have hnext := ih (n + 1) (by omega)
          simp [hmax, hr]
          omega
        · simp [hmax, hr]

/-- C7: behaviour of the retry loop at any reachable attempt `n`:
(1) at most `maxAttempts - n` further sleeps happen (so at most
`maxAttempts` attempts in total); (2) a success returns at once with no
sleep; (3) a failure on the final attempt surfaces the original failure
with no sleep, regardless of classification; (4) a failure classified
non-retryable surfaces the original failure with no sleep; (5) a failure
classified retryable on `n < maxAttempts` sleeps exactly
`min(baseDelay * backoffMultiplier^(n-1), maxDelay)` plus — for a random
sample in [0, 1] and a nonnegative pre-jitter delay — at most 10% of that
delay when jitter is enabled, then continues with attempt `n + 1`. -/
theorem C7_retryWithBackoff_spec {α : Type} (cfg : RetryConfig)
    (outcomes : Nat → AttemptResult α) (rand : Nat → ℚ) (n : Nat)
    (h1 : 1 ≤ n) (h2 : n ≤ cfg.maxAttempts) :
    ((retryLoop cfg outcomes rand n).2.length ≤ cfg.maxAttempts - n)
    ∧ (∀ v, outcomes n = .ok v →
        retryLoop cfg outcomes rand n = (.ok v, []))
    ∧ (∀ e, outcomes n = .fail e → n = cfg.maxAttempts →
        retryLoop cfg outcomes rand n = (.error e, []))
    ∧ (∀ e, outcomes n = .fail e → (categorizeError e).retryable = false →
        retryLoop cfg outcomes rand n = (.error e, []))
    ∧ (∀ e, outcomes n = .fail e → n < cfg.maxAttempts →
        (categorizeError e).retryable = true →
        retryLoop cfg outcomes rand n =
          ((retryLoop cfg outcomes rand (n + 1)).1,
            jitteredDelay cfg (rand n) (backoffDelay cfg n)
              :: (retryLoop cfg outcomes rand (n + 1)).2)
        ∧ (0 ≤ rand n → rand n ≤ 1 → 0 ≤ backoffDelay cfg n →
            backoffDelay cfg n ≤ jitteredDelay cfg (rand n) (backoffDelay cfg n)
            ∧ jitteredDelay cfg (rand n) (backoffDelay cfg n)
                ≤ backoffDelay cfg n + backoffDelay cfg n * (1 / 10))) := by
  refine ⟨retryLoop_length_le cfg outcomes rand _ n le_rfl, ?_, ?_, ?_, ?_⟩
  · intro v hv
    rw [retryLoop, hv]
  · intro e he hn
    rw [retryLoop, he]
    simp [hn]
  · intro e he hr
    rw [retryLoop, he]
    by_cases hmax : cfg.maxAttempts ≤ n
    · simp [hmax]
    · simp [hmax, hr]
  · intro e he hn hr
    constructor
    · rw [retryLoop, he]
      have hmax : ¬ cfg.maxAttempts ≤ n := by omega
      simp [hmax, hr]
    · intro hr0 hr1 hd0
      rcases hj : cfg.jitter with _ | _
      · have hjd : jitteredDelay cfg (rand n) (backoffDelay cfg n) = backoffDelay cfg n := by
          simp [jitteredDelay, hj]
        rw [hjd]
        exact ⟨le_rfl, by nlinarith⟩
      · have hjd : jitteredDelay cfg (rand n) (backoffDelay cfg n)
            = backoffDelay cfg n + rand n * backoffDelay cfg n * (1 / 10) := by
          simp [jitteredDelay, hj]
        rw [hjd]
        constructor
        · nlinarith
        · nlinarith

/-- Concrete attempt outcomes for the C7 witness: the first attempt fails
with a network failure, every later attempt succeeds. -/
def retryOutcomeEx : Nat → AttemptResult Nat :=
  fun k => if k = 1 then .fail "network failure" else .ok 42

/-- Concrete random samples for the C7 witness. -/
def retryRandEx : Nat → ℚ := fun _ => 1 / 2

/-- Witness for C7 at a concrete input. -/
theorem C7_retryWithBackoff_spec_w :
    ((1 : Nat) ≤ 1 ∧ 1 ≤ DEFAULT_RETRY_CONFIG.maxAttempts)
    ∧ (retryLoop DEFAULT_RETRY_CONFIG retryOutcomeEx retryRandEx 1).2.length
        ≤ DEFAULT_RETRY_CONFIG.maxAttempts - 1 :=
  ⟨⟨Nat.le_refl 1, by decide⟩,
   (C7_retryWithBackoff_spec DEFAULT_RETRY_CONFIG retryOutcomeEx retryRandEx 1
      (Nat.le_refl 1) (by decide)).1⟩

/-! ## Connection state machine (`WebSocketService`) -/

/-- Model of `WebSocketConfig` (the endpoint URL is irrelevant to the verified
properties and omitted). -/
structure WebSocketConfig where
  reconnectAttempts : Nat
  reconnectInterval : ℚ
  heartbeatInterval : ℚ
  fallbackToPolling : Bool
deriving DecidableEq, Repr

/-- Model of `WebSocketState`. -/
structure WebSocketState where
  isConnected : Bool
  isConnecting : Bool
  lastMessage : Option ℤ
  reconnectAttempts : Nat
  error : Option String
deriving DecidableEq, Repr

/-- The mutable fields of the `WebSocketService` singleton.  `wsOpen`
stands for `this.ws !== null`, the three timer flags for the respective
handles being non-null. -/
structure WebSocketService where
  wsOpen : Bool
  config : WebSocketConfig
  state : WebSocketState
  reconnectTimer : Bool
  heartbeatTimer : Bool
  pollingInterval : Bool
  isPollingFallback : Bool
  subscribedSymbols : List String
deriving DecidableEq, Repr

/-- Observable side effects of `WebSocketService.cleanup`. -/
inductive CleanupEffect where
  | closeWS
  | clearReconnectTimer
  | clearHeartbeatTimer
  | clearPollingInterval
deriving DecidableEq, Repr

/-- Model of `WebSocketService.stopPollingFallback`: clears the polling interval if
one is set and always resets the fallback flag. -/
def stopPollingFallback (s : WebSocketService) : WebSocketService × List CleanupEffect :=
  if s.pollingInterval then
    ({ s with pollingInterval := false, isPollingFallback := false },
      [.clearPollingInterval])
  else ({ s with isPollingFallback := false }, [])

/-- Model of `WebSocketService.cleanup`: close the transport if open, clear the
reconnect and heartbeat timers if set, stop polling fallback; the effect
list records each cleanup action actually performed. -/
def cleanup (s : WebSocketService) : WebSocketService × List CleanupEffect :=
  let e1 : List CleanupEffect := if s.wsOpen then [.closeWS] else []
  let s1 := { s with wsOpen := false }
  let e2 : List CleanupEffect := if s1.reconnectTimer then [.clearReconnectTimer] else []
  let s2 := { s1 with reconnectTimer := false }
  let e3 : List CleanupEffect := if s2.heartbeatTimer then [.clearHeartbeatTimer] else []
  let s3 := { s2 with heartbeatTimer := false }
  let r := stopPollingFallback s3
  (r.1, e1 ++ e2 ++ e3 ++ r.2)

/-- Model of `WebSocketService.disconnect`: cleanup, then reset the connection
state and clear the error (`notifyConnectionState` is an external
callback and changes no state). -/
def disconnect (s : WebSocketService) : WebSocketService × List CleanupEffect :=
  let r := cleanup s
  ({ r.1 with
      state := { r.1.state with isConnected := false, isConnecting := false,
                                error := none } },
    r.2)

/-- Model of `WebSocketService.startPollingFallback`. -/
def startPollingFallback (s : WebSocketService) : WebSocketService :=
  if s.isPollingFallback then s
  else { s with isPollingFallback := true, pollingInterval := true }

/-- Model of `WebSocketService.handleReconnection`: when the attempt counter has
reached the configured maximum, record the terminal error and enter
polling fallback if enabled and not already active; otherwise schedule a
reconnect timer. -/
def handleReconnection (s : WebSocketService) : WebSocketService :=
  if s.config.reconnectAttempts ≤ s.state.reconnectAttempts then
    let s1 := { s with
      state := { s.state with error := some "Max reconnection attempts reached" } }
    if s1.config.fallbackToPolling && !s1.isPollingFallback then
      startPollingFallback s1
    else s1
  else { s with reconnectTimer := true }

/-- Model of `WebSocketService.handleConnectionError` (reached from the transport
`onerror` handler via `handleError`, and from a construction-time failure
in `connect`): cleanup, record the error, then enter polling fallback if
enabled and not already active, else fall through to reconnection. -/
def handleConnectionError (s : WebSocketService) (msg : String) : WebSocketService :=
  let s1 := (cleanup s).1
  let s2 := { s1 with
    state := { s1.state with isConnected := false, isConnecting := false,
                             error := some msg } }
  if s2.config.fallbackToPolling && !s2.isPollingFallback then
    startPollingFallback s2
  else handleReconnection s2

/-- Model of `WebSocketService.handleClose`: cleanup, drop to disconnected, and
trigger reconnection only if the close followed a connected session. -/
def handleClose (s : WebSocketService) : WebSocketService :=
  let s1 := (cleanup s).1
  let wasConnected := s1.state.isConnected
  let s2 := { s1 with
    state := { s1.state with isConnected := false, isConnecting := false } }
  if wasConnected then handleReconnection s2 else s2

/-- Model of `WebSocketService.handleOpen`: mark connected, reset the attempt
counter, start the heartbeat (the subscribe messages are sends and change
no state). -/
def handleOpen (s : WebSocketService) : WebSocketService :=
  { s with
    state := { s.state with isConnected := true, isConnecting := false,
                            reconnectAttempts := 0, error := none }
    heartbeatTimer := true }

/-- Model of `WebSocketService.connect`: a no-op while connected or connecting,
otherwise open a transport and mark connecting. -/
def connect (s : WebSocketService) : WebSocketService :=
  if s.state.isConnected || s.state.isConnecting then s
  else { s with state := { s.state with isConnecting := true, error := none }
                wsOpen := true }

/-- The reconnect timer callback: increment the attempt counter and call
`connect` (the fired handle stays recorded, as in the source). -/
def reconnectTimerFire (s : WebSocketService) : WebSocketService :=
  connect { s with
    state := { s.state with reconnectAttempts := s.state.reconnectAttempts + 1 } }

/-- The externally triggered transitions of the client. -/
inductive WSEvent where
  | openEv
  | closeEv
  | errorEv (msg : String)
  | reconnectFireEv
  | disconnectEv
deriving DecidableEq, Repr

/-- One transition of the connection state machine. -/
def step : WSEvent → WebSocketService → WebSocketService
  | .openEv, s => handleOpen s
  | .closeEv, s => handleClose s
  | .errorEv m, s => handleConnectionError s m
  | .reconnectFireEv, s => reconnectTimerFire s
  | .disconnectEv, s => (disconnect s).1

/-- Helper: the service part of `cleanup` just clears the transport, the
timers and the fallback flag. -/
theorem cleanup_fst (s : WebSocketService) :
    (cleanup s).1 = { s with wsOpen := false, reconnectTimer := false,
                             heartbeatTimer := false, pollingInterval := false,
                             isPollingFallback := false } := by
  unfold cleanup stopPollingFallback
  by_cases h : s.pollingInterval <;> simp [h]

/-- C10: `disconnect` is valid in every state: it leaves the transport
closed, every timer cancelled and the state disconnected with the error
cleared; a second `disconnect` reproduces exactly the same service value
and performs no cleanup side effect at all. -/
theorem C10_disconnect_idempotent :
    ∀ s : WebSocketService,
      ((disconnect s).1.wsOpen = false
        ∧ (disconnect s).1.reconnectTimer = false
        ∧ (disconnect s).1.heartbeatTimer = false
        ∧ (disconnect s).1.pollingInterval = false
        ∧ (disconnect s).1.state.isConnected = false
        ∧ (disconnect s).1.state.isConnecting = false
        ∧ (disconnect s).1.state.error = none)
      ∧ (disconnect (disconnect s).1).1 = (disconnect s).1
      ∧ (disconnect (disconnect s).1).2 = [] := by
  intro s
  rcases s with ⟨ws, cfg, st, rt, ht, pi, ipf, subs⟩
  rcases st with ⟨ic, icg, lm, ra, err⟩
  cases ws <;> cases rt <;> cases ht <;> cases pi <;>
    exact ⟨⟨rfl, rfl, rfl, rfl, rfl, rfl, rfl⟩, rfl, rfl⟩

/-- A connected service with fallback enabled, no polling active and no
reconnect attempt spent. -/
def wsConnectedEx : WebSocketService :=
  { wsOpen := true
    config := { reconnectAttempts := 5, reconnectInterval := 1000,
                heartbeatInterval := 30000, fallbackToPolling := true }
    state := { isConnected := true, isConnecting := false,
               lastMessage := none, reconnectAttempts := 0, error := none }
    reconnectTimer := false
    heartbeatTimer := true
    pollingInterval := false
    isPollingFallback := false
    subscribedSymbols := ["TCS"] }

/-- C3 counterexample: a transport error on a connected client with zero
spent reconnect attempts (far below `maxAttempts = 5`) immediately puts
the client into polling fallback, so Fallback is NOT entered only after
reconnect attempts are exhausted or on construction-time failure. -/
theorem C3_fallback_before_exhaustion :
    wsConnectedEx.isPollingFallback = false
    ∧ wsConnectedEx.state.reconnectAttempts < wsConnectedEx.config.reconnectAttempts
    ∧ (step (.errorEv "connection lost") wsConnectedEx).isPollingFallback = true := by
  exact ⟨rfl, by decide, rfl⟩

/-- C3 amended: Fallback is entered only by `handleConnectionError` — on
ANY connection error, construction-time or transport, with fallback
enabled — or once the reconnect attempt counter has reached
`maxAttempts`; in particular a close event before exhaustion never enters
Fallback. -/
theorem C3_fallback_entry_amended :
    ∀ (s : WebSocketService) (e : WSEvent),
      s.isPollingFallback = false →
      (step e s).isPollingFallback = true →
      (∃ m, e = .errorEv m) ∨ s.config.reconnectAttempts ≤ s.state.reconnectAttempts := by
  intro s e hpf hstep
  cases e with
  | openEv =>
    exfalso
    simp [step, handleOpen, hpf] at hstep
  | closeEv =>
    right
    simp only [step, handleClose, cleanup_fst] at hstep
    by_cases hmax : s.config.reconnectAttempts ≤ s.state.reconnectAttempts
    · exact hmax
    · exfalso
      by_cases hwc : s.state.isConnected <;>
        simp [hwc, handleReconnection, hmax, startPollingFallback] at hstep
  | errorEv m => exact Or.inl ⟨m, rfl⟩
  | reconnectFireEv =>
    exfalso
    have hstep2 : (connect { s with
        state := { s.state with
          reconnectAttempts := s.state.reconnectAttempts + 1 } }).isPollingFallback
        = true := hstep
    unfold connect at hstep2
    split at hstep2 <;> simp [hpf] at hstep2
  | disconnectEv =>
    exfalso
    simp only [step, disconnect, cleanup_fst] at hstep
    simp at hstep

/-- Witness for C3 (amended) at a concrete input: a close event on a
client whose attempt counter has reached the maximum. -/
theorem C3_fallback_entry_amended_w :
    ({ wsConnectedEx with
        state := { wsConnectedEx.state with reconnectAttempts := 5 } }.isPollingFallback = false
      ∧ (step .closeEv { wsConnectedEx with
          state := { wsConnectedEx.state with reconnectAttempts := 5 } }).isPollingFallback = true)
    ∧ ((∃ m, WSEvent.closeEv = WSEvent.errorEv m)
        ∨ { wsConnectedEx with
              state := { wsConnectedEx.state with reconnectAttempts := 5 } }.config.reconnectAttempts
            ≤ { wsConnectedEx with
                  state := { wsConnectedEx.state with reconnectAttempts := 5 } }.state.reconnectAttempts) :=
  ⟨⟨rfl, rfl⟩,
   C3_fallback_entry_amended
     { wsConnectedEx with
         state := { wsConnectedEx.state with reconnectAttempts := 5 } }
     .closeEv rfl rfl⟩

/-! ## Debounced refresh (`OptimizedStockDataService.debouncedRefresh`) -/

/-- The debounce state of `OptimizedStockDataService`: `refreshTimeout`
holds the pending timer together with the symbol list captured by its
callback closure, or `none` when no timer is pending. -/
structure OptimizedCoalescer where
  refreshTimeout : Option (List String)
deriving DecidableEq, Repr

/-- Model of `OptimizedStockDataService.debouncedRefresh`: clear any pending timer
and start a fresh one whose callback captures exactly the symbols of THIS
call — the symbols captured by a cleared timer are dropped, there is no
accumulator field. -/
def debouncedRefresh (c : OptimizedCoalescer) (symbols : List String) :
    OptimizedCoalescer :=
  let _ := c.refreshTimeout
  { refreshTimeout := some symbols }

/-- The upstream `stockDataService.batchFetchData` invocations made when
the debounce window closes and the surviving timer fires: one call with
the captured symbols, or none if no timer is pending. -/
def refreshTimerFire (c : OptimizedCoalescer) : List (List String) :=
  match c.refreshTimeout with
  | some symbols => [symbols]
  | none => []

/-- All upstream batch calls resulting from a sequence of
`debouncedRefresh` requests that fall inside one debounce window (each
request resets the 500 ms timer, so only the final timer fires). -/
def windowUpstreamBatches (requests : List (List String)) : List (List String) :=
  refreshTimerFire (requests.foldl debouncedRefresh ⟨none⟩)

/-- C2 counterexample: two requests inside one debounce window — first for
["AAPL"], then for ["TCS"] — produce exactly one upstream batch call, but
that call is ["TCS"] alone: the symbol "AAPL" requested within the window
is missing, so the batch is not the union of the window's requests. -/
theorem C2_window_batch_not_union :
    windowUpstreamBatches [["AAPL"], ["TCS"]] = [["TCS"]]
    ∧ "AAPL" ∉ (["TCS"] : List String) := by
  exact ⟨rfl, by decide⟩

/-- C2 amended: for every nonempty sequence of refresh requests within one
debounce window, exactly one upstream batch call is made when the timer
fires, and it carries exactly the symbols of the LAST request of the
window; symbols of the earlier requests are dropped. -/
theorem C2_window_batch_last_request :
    ∀ (requests : List (List String)) (h : requests ≠ []),
      windowUpstreamBatches requests = [requests.getLast h] := by
  intro requests h
  unfold windowUpstreamBatches
  induction requests with
  | nil => exact absurd rfl h
  | cons r rest ih =>
    cases rest with
    | nil => rfl
    | cons r2 rest2 =>
      rw [List.getLast_cons (by simp)]
      exact ih (by simp)

/-- Witness for C2 (amended) at a concrete input. -/
theorem C2_window_batch_last_request_w :
    (([["AAPL"], ["TCS"], ["INFY", "TCS"]] : List (List String)) ≠ [])
    ∧ windowUpstreamBatches [["AAPL"], ["TCS"], ["INFY", "TCS"]]
        = [([["AAPL"], ["TCS"], ["INFY", "TCS"]] : List (List String)).getLast
            (by simp)] := by
  exact ⟨by simp, C2_window_batch_last_request _ (by simp)⟩

/-! ## Batch chunking (`StockDataService.batchFetchData`) -/

/-- Model of `SERVICE_CONFIG.BATCH_SIZE`. -/
def BATCH_SIZE : Nat := 5

/-- First-occurrence deduplication, as performed by the JS
`[...new Set(list)]` spread (a JS `Set` iterates in first-insertion
order); `seen` accumulates the symbols already kept. -/
def dedupFirst (seen : List String) : List String → List String
  | [] => []
  | x :: xs =>
      if x ∈ seen then dedupFirst seen xs
      else x :: dedupFirst (x :: seen) xs

/-- JS `s.toUpperCase()` (character-wise, which the all-ASCII ticker
symbols in play make exact). -/
def strToUpper (s : String) : String := String.mk (s.toList.map Char.toUpper)

/-- Model of `[...new Set(symbols.map(s => s.toUpperCase()))]`. -/
def uniqueUpper (symbols : List String) : List String :=
  dedupFirst [] (symbols.map strToUpper)

/-- The chunking `for` loop of `StockDataService.batchFetchData`: slice
off `BATCH_SIZE` symbols per iteration and, whenever more symbols remain
(`i + BATCH_SIZE < uniqueSymbols.length`), sleep `await this.delay(500)`
between consecutive chunks.  Returns the dispatched chunks and the list of
inter-chunk delays in milliseconds. -/
def chunkLoop (l : List String) : List (List String) × List Nat :=
  if h : l = [] then ([], [])
  else
    let rest := l.drop BATCH_SIZE
    let next := chunkLoop rest
    (l.take BATCH_SIZE :: next.1,
      if rest.isEmpty then next.2 else 500 :: next.2)
termination_by l.length
decreasing_by
  simp only [List.length_drop, BATCH_SIZE]
  have : l.length ≠ 0 := fun h0 => h (List.eq_nil_of_length_eq_zero h0)
  omega

/-- Model of `StockDataService.batchFetchData` reduced to its dispatch plan:
uppercase + first-occurrence dedup, then fixed-size chunks with the
inter-chunk delays actually slept. -/
def batchFetchPlan (symbols : List String) : List (List String) × List Nat :=
  chunkLoop (uniqueUpper symbols)

/-- C4 counterexample: six distinct symbols are split into two chunks and
the single inter-chunk delay is 500 ms, not the claimed default of
1000 ms. -/
theorem C4_interchunk_delay_is_500 :
    batchFetchPlan ["A", "B", "C", "D", "E", "F"]
      = ([["A", "B", "C", "D", "E"], ["F"]], [500])
    ∧ (500 : Nat) ≠ 1000 := by
  refine ⟨?_, by decide⟩
  have hu : uniqueUpper ["A", "B", "C", "D", "E", "F"]
      = ["A", "B", "C", "D", "E", "F"] := by decide
  simp [batchFetchPlan, hu, chunkLoop, BATCH_SIZE]

/-- Helper: nothing kept by `dedupFirst` was already seen. -/
theorem dedupFirst_mem_not_seen :
    ∀ (l seen : List String) (x : String), x ∈ dedupFirst seen l → x ∉ seen := by
  intro l
  induction l with
  | nil => intro seen x hx; simp [dedupFirst] at hx
  | cons a as ih =>
    intro seen x hx
    unfold dedupFirst at hx
    split at hx
    · exact ih seen x hx
    · rcases List.mem_cons.mp hx with rfl | hx2
      · assumption
      · intro hxs
        exact ih (a :: seen) x hx2 (List.mem_cons_of_mem a hxs)

/-- Helper: `dedupFirst` yields a duplicate-free list. -/
theorem dedupFirst_nodup :
    ∀ (l seen : List String), (dedupFirst seen l).Nodup := by
  intro l
  induction l with
  | nil => intro seen; simp [dedupFirst]
  | cons a as ih =>
    intro seen
    unfold dedupFirst
    split
    · exact ih seen
    · refine List.nodup_cons.mpr ⟨?_, ih (a :: seen)⟩
      intro hmem
      exact dedupFirst_mem_not_seen as (a :: seen) a hmem (List.mem_cons_self a seen)

/-- Helper: one unfolding of `chunkLoop` on a nonempty list. -/
theorem chunkLoop_cons (l : List String) (hne : l ≠ []) :
    chunkLoop l
      = (l.take BATCH_SIZE :: (chunkLoop (l.drop BATCH_SIZE)).1,
          if (l.drop BATCH_SIZE).isEmpty then (chunkLoop (l.drop BATCH_SIZE)).2
          else 500 :: (chunkLoop (l.drop BATCH_SIZE)).2) := by
  rw [chunkLoop]
  rw [dif_neg hne]

/-- Helper: the chunk loop concatenates back to its input, each dispatched
chunk is nonempty with at most `BATCH_SIZE` symbols, and exactly one 500 ms
delay separates each pair of consecutive chunks. -/
theorem chunkLoop_spec :
    ∀ (n : Nat) (l : List String), l.length ≤ n →
      (chunkLoop l).1.flatten = l
      ∧ (∀ c ∈ (chunkLoop l).1, c.length ≤ BATCH_SIZE ∧ c ≠ [])
      ∧ (chunkLoop l).2 = List.replicate ((chunkLoop l).1.length - 1) 500 := by
  intro n
  induction n with
  | zero =>
    intro l hl
    have hnil : l = [] := List.eq_nil_of_length_eq_zero (Nat.le_zero.mp hl)
    subst hnil
    rw [chunkLoop]
    simp
  | succ n ih =>
    intro l hl
    by_cases hne : l = []
    · subst hne
      rw [chunkLoop]
      simp
    · obtain ⟨ihjoin, ihchunks, ihdelays⟩ :=
        ih (l.drop BATCH_SIZE) (by simp [BATCH_SIZE]; omega)
      rw [chunkLoop_cons l hne]
      refine ⟨?_, ?_, ?_⟩
      · rw [List.flatten_cons, ihjoin, List.take_append_drop]
      · intro c hc
        rcases List.mem_cons.mp hc with rfl | hc2
        · refine ⟨by simpa using Nat.min_le_left _ _, ?_⟩
          intro htake
          rcases List.take_eq_nil_iff.mp htake with h0 | h0
          · exact absurd h0 (by decide)
          · exact hne h0
        · exact ihchunks c hc2
      · by_cases hrest : (l.drop BATCH_SIZE).isEmpty
        · have hrnil : l.drop BATCH_SIZE = [] := List.isEmpty_iff.mp hrest
          have hnil2 : chunkLoop (l.drop BATCH_SIZE) = ([], []) := by
            rw [hrnil, chunkLoop]; simp
          simp [hrest, hnil2]
        · have hrnil : l.drop BATCH_SIZE ≠ [] :=
            fun h0 => hrest (by simp [h0])
          have hlen1 : 1 ≤ (chunkLoop (l.drop BATCH_SIZE)).1.length := by
            rw [chunkLoop_cons _ hrnil]
            simp
          simp only [if_neg hrest, ihdelays, List.length_cons]
          rw [show (chunkLoop (l.drop BATCH_SIZE)).1.length + 1 - 1
                = ((chunkLoop (l.drop BATCH_SIZE)).1.length - 1) + 1 by omega]
          rw [List.replicate_succ]

/-- C4 amended: the batch fetch deduplicates the uppercased symbols, splits
them into nonempty chunks of at most `BATCH_SIZE = 5` symbols that
concatenate back to the deduplicated list, and sleeps exactly one 500 ms
(not 1000 ms) delay between each pair of consecutive chunks. -/
theorem C4_chunking_amended (symbols : List String) :
    (batchFetchPlan symbols).1.flatten = uniqueUpper symbols
    ∧ (uniqueUpper symbols).Nodup
    ∧ (∀ c ∈ (batchFetchPlan symbols).1, c.length ≤ BATCH_SIZE ∧ c ≠ [])
    ∧ (batchFetchPlan symbols).2
        = List.replicate ((batchFetchPlan symbols).1.length - 1) 500 := by
  obtain ⟨h1, h2, h3⟩ :=
    chunkLoop_spec (uniqueUpper symbols).length (uniqueUpper symbols) le_rfl
  exact ⟨h1, dedupFirst_nodup _ _, h2, h3⟩

/-- Witness for C4 (amended) at a concrete input. -/
theorem C4_chunking_amended_w :
    (batchFetchPlan ["tcs", "TCS", "infy", "a", "b", "c"]).1.flatten
        = uniqueUpper ["tcs", "TCS", "infy", "a", "b", "c"]
    ∧ (uniqueUpper ["tcs", "TCS", "infy", "a", "b", "c"]).Nodup
    ∧ (∀ c ∈ (batchFetchPlan ["tcs", "TCS", "infy", "a", "b", "c"]).1,
        c.length ≤ BATCH_SIZE ∧ c ≠ [])
    ∧ (batchFetchPlan ["tcs", "TCS", "infy", "a", "b", "c"]).2
        = List.replicate
            ((batchFetchPlan ["tcs", "TCS", "infy", "a", "b", "c"]).1.length - 1)
            500 :=
  C4_chunking_amended ["tcs", "TCS", "infy", "a", "b", "c"]

/-! ## TTL cache with capacity eviction (`OptimizedStockDataService`) -/

/-- Model of `CacheEntry<T>`. -/
structure CacheEntry (α : Type) where
  data : α
  timestamp : ℤ
  expiresAt : ℤ
  accessCount : Nat
deriving DecidableEq, Repr

/-- The service's `cache : Map<string, CacheEntry<any>>`, kept in
insertion order like a JS `Map`. -/
abbrev Cache (α : Type) := List (String × CacheEntry α)

/-- Model of `OptimizedStockDataService.CACHE_SIZE_LIMIT`. -/
def CACHE_SIZE_LIMIT : Nat := 1000

/-- Model of `OptimizedStockDataService.CACHE_TTL` (5 minutes in milliseconds). -/
def CACHE_TTL : ℤ := 5 * 60 * 1000

/-- JS `Map.get`. -/
def mapGet {α : Type} : Cache α → String → Option (CacheEntry α)
  | [], _ => none
  | (k, v) :: rest, key => if k = key then some v else mapGet rest key

/-- JS `Map.set`: overwriting an existing key keeps its position,
a new key is appended. -/
def mapSet {α : Type} : Cache α → String → CacheEntry α → Cache α
  | [], key, v => [(key, v)]
  | (k, w) :: rest, key, v =>
      if k = key then (key, v) :: rest else (k, w) :: mapSet rest key v

/-- JS `Map.delete`. -/
def mapDelete {α : Type} (c : Cache α) (key : String) : Cache α :=
  c.filter (fun p => !(p.1 == key))

/-- Model of `OptimizedStockDataService.getCachedData`: a hit requires
`Date.now() < entry.expiresAt` (strict) and mutates the entry in place by
`entry.accessCount++`; the value and the possibly mutated cache are
returned. -/
def getCachedData {α : Type} (now : ℤ) (c : Cache α) (key : String) :
    Option α × Cache α :=
  match mapGet c key with
  | some e =>
      if now < e.expiresAt then
        (some e.data, mapSet c key { e with accessCount := e.accessCount + 1 })
      else (none, c)
  | none => (none, c)

/-- The JS `(a, b) => a[1].accessCount - b[1].accessCount` ascending
comparator, as the "less or equal" test of a stable sort (ES2019
`Array.prototype.sort` is stable). -/
def accessLE {α : Type} (a b : String × CacheEntry α) : Bool :=
  decide (a.2.accessCount ≤ b.2.accessCount)

/-- The capacity-pressure branch of `OptimizedStockDataService.setCachedData`:
when the cache has reached `limit` entries, stably sort the entries by
ascending `accessCount` and delete the first `Math.floor(limit * 0.2)`
of them by key (`limit * 2 / 10` is exact for the source constant 1000). -/
def evict {α : Type} (limit : Nat) (c : Cache α) : Cache α :=
  if limit ≤ c.length then
    (((c.mergeSort accessLE).take (limit * 2 / 10)).foldl
      (fun acc p => mapDelete acc p.1) c)
  else c

/-- Model of `OptimizedStockDataService.setCachedData`: evict under capacity
pressure, then insert/overwrite the key with a fresh entry carrying
`expiresAt = now + ttl` and `accessCount = 1`. -/
def setCachedData {α : Type} (now : ℤ) (limit : Nat) (ttl : ℤ) (c : Cache α)
    (key : String) (data : α) : Cache α :=
  mapSet (evict limit c) key
    { data := data, timestamp := now, expiresAt := now + ttl, accessCount := 1 }

/-- Helper: looking up a key right after setting it yields the new entry. -/
theorem mapGet_mapSet_self {α : Type} :
    ∀ (c : Cache α) (key : String) (v : CacheEntry α),
      mapGet (mapSet c key v) key = some v := by
  intro c key v
  induction c with
  | nil => simp [mapGet, mapSet]
  | cons p rest ih =>
    obtain ⟨k, w⟩ := p
    by_cases h : k = key
    · simp [mapGet, mapSet, h]
    · simp [mapGet, mapSet, h, ih]

/-- C9: the cache get/set contract.  `get` returns a value exactly when an
entry exists whose `expiresAt` lies strictly in the future; such a hit
bumps that entry's `accessCount` by one and touches nothing else a lookup
can see; any other `get` is a miss leaving the cache unchanged; `set`
installs an entry with `expiresAt = now + ttl` and `accessCount = 1`. -/
theorem C9_cache_get_set_contract {α : Type} (now : ℤ) (c : Cache α)
    (key : String) (limit : Nat) (ttl : ℤ) (d : α) :
    (∀ v, (getCachedData now c key).1 = some v ↔
        ∃ e, mapGet c key = some e ∧ now < e.expiresAt ∧ e.data = v)
    ∧ (∀ e, mapGet c key = some e → now < e.expiresAt →
        getCachedData now c key
          = (some e.data, mapSet c key { e with accessCount := e.accessCount + 1 }))
    ∧ (∀ e, mapGet c key = some e → now < e.expiresAt →
        mapGet (getCachedData now c key).2 key
          = some { e with accessCount := e.accessCount + 1 })
    ∧ ((∀ e, mapGet c key = some e → ¬ now < e.expiresAt) →
        getCachedData now c key = (none, c))
    ∧ mapGet (setCachedData now limit ttl c key d) key
        = some { data := d, timestamp := now, expiresAt := now + ttl,
                 accessCount := 1 } := by
  refine ⟨?_, ?_, ?_, ?_, ?_⟩
  · intro v
    unfold getCachedData
    rcases hget : mapGet c key with _ | e
    · simp
    · by_cases hexp : now < e.expiresAt
      · simp only [if_pos hexp]
        constructor
        · intro hv
          exact ⟨e, rfl, hexp, by simpa using hv⟩
        · rintro ⟨e2, he2, hexp2, hdata⟩
          obtain rfl : e = e2 := by simpa using he2
          simpa using hdata
      · simp only [if_neg hexp]
        constructor
        · intro hv; simp at hv
        · rintro ⟨e2, he2, hexp2, hdata⟩
          obtain rfl : e = e2 := by simpa using he2
          exact absurd hexp2 hexp
  · intro e hget hexp
    unfold getCachedData
    rw [hget]
    simp [hexp]
  · intro e hget hexp
    unfold getCachedData
    rw [hget]
    simp [hexp, mapGet_mapSet_self]
  · intro hmiss
    unfold getCachedData
    rcases hget : mapGet c key with _ | e
    · rfl
    · simp [hmiss e hget]
  · unfold setCachedData
    exact mapGet_mapSet_self _ key _

/-- A five-entry cache at a capacity limit of 5, for the cache witnesses. -/
def cacheEx : Cache Nat :=
  [("a", ⟨10, 0, 50, 2⟩), ("b", ⟨11, 0, 50, 1⟩), ("c", ⟨12, 0, 50, 3⟩),
   ("d", ⟨13, 0, 50, 1⟩), ("e", ⟨14, 0, 50, 5⟩)]

/-- Witness for C9 at a concrete input: a pre-expiry hit on key "b". -/
theorem C9_cache_get_set_contract_w :
    (mapGet cacheEx "b" = some ⟨11, 0, 50, 1⟩ ∧ (7 : ℤ) < (50 : ℤ))
    ∧ mapGet (getCachedData 7 cacheEx "b").2 "b" = some ⟨11, 0, 50, 2⟩ :=
  ⟨⟨rfl, by decide⟩,
   (C9_cache_get_set_contract 7 cacheEx "b" 5 100 0).2.2.1 ⟨11, 0, 50, 1⟩
     rfl (by decide)⟩

/-- Helper: the access-count comparator is transitive. -/
theorem accessLE_trans {α : Type} (a b c : String × CacheEntry α) :
    accessLE a b = true → accessLE b c = true → accessLE a c = true := by
  simp only [accessLE, decide_eq_true_eq]
  omega

/-- Helper: the access-count comparator is total. -/
theorem accessLE_total {α : Type} (a b : String × CacheEntry α) :
    (accessLE a b || accessLE b a) = true := by
  simp only [accessLE, Bool.or_eq_true, decide_eq_true_eq]
  omega

/-- Helper: folding `mapDelete` over a list of entries removes exactly the
cache entries whose key appears among theirs. -/
theorem foldl_mapDelete_eq_filter {α : Type} :
    ∀ (pairs : List (String × CacheEntry α)) (c : Cache α),
      pairs.foldl (fun acc p => mapDelete acc p.1) c
        = c.filter (fun q => !(decide (q.1 ∈ pairs.map Prod.fst))) := by
  intro pairs
  induction pairs with
  | nil => intro c; simp
  | cons p ps ih =>
    intro c
    rw [List.foldl_cons, ih (mapDelete c p.1)]
    unfold mapDelete
    rw [List.filter_filter]
    apply List.filter_congr
    intro q hq
    by_cases h1 : q.1 = p.1 <;> by_cases h2 : q.1 ∈ ps.map Prod.fst <;>
      simp [h1, h2, List.mem_cons]

/-- Helper: any two distinct members of a list occur in one of the two
relative orders. -/
theorem pair_sublist_of_mem {β : Type} :
    ∀ (l : List β) (a b : β), a ∈ l → b ∈ l → a ≠ b →
      [a, b].Sublist l ∨ [b, a].Sublist l := by
  intro l
  induction l with
  | nil => intro a b ha _ _; simp at ha
  | cons x xs ih =>
    intro a b ha hb hne
    by_cases hxa : x = a
    · subst hxa
      have hbxs : b ∈ xs := by
        rcases List.mem_cons.mp hb with h | h
        · exact absurd h.symm hne
        · exact h
      exact Or.inl (List.Sublist.cons₂ x (List.singleton_sublist.mpr hbxs))
    · by_cases hxb : x = b
      · subst hxb
        have haxs : a ∈ xs := by
          rcases List.mem_cons.mp ha with h | h
          · exact absurd h hne
          · exact h
        exact Or.inr (List.Sublist.cons₂ x (List.singleton_sublist.mpr haxs))
      · have ha2 : a ∈ xs := by
          rcases List.mem_cons.mp ha with h | h
          · exact absurd h.symm hxa
          · exact h
        have hb2 : b ∈ xs := by
          rcases List.mem_cons.mp hb with h | h
          · exact absurd h.symm hxb
          · exact h
        exact (ih a b ha2 hb2 hne).imp (fun h => h.cons x) (fun h => h.cons x)

/-- C8: capacity eviction.  For a cache of distinct keys at its capacity
limit, the sorted-by-access prefix slated for eviction has exactly
`⌊limit * 0.2⌋` entries; the evicted cache consists (up to order) of
exactly the remaining entries of the stable sort; every evicted entry
either has a strictly lower `accessCount` than every survivor or ties it
and was inserted earlier; and the just-inserted entry always survives with
`accessCount = 1`. -/
theorem C8_capacity_eviction {α : Type} (now ttl : ℤ) (key : String) (d : α)
    (limit : Nat) (c : Cache α)
    (hnd : (c.map Prod.fst).Nodup) (hcap : limit ≤ c.length) :
    ((c.mergeSort accessLE).take (limit * 2 / 10)).length = limit * 2 / 10
    ∧ (evict limit c).Perm ((c.mergeSort accessLE).drop (limit * 2 / 10))
    ∧ (∀ e ∈ (c.mergeSort accessLE).take (limit * 2 / 10),
        ∀ s ∈ (c.mergeSort accessLE).drop (limit * 2 / 10),
          e.2.accessCount < s.2.accessCount
          ∨ (e.2.accessCount = s.2.accessCount ∧ [e, s].Sublist c))
    ∧ mapGet (setCachedData now limit ttl c key d) key
        = some { data := d, timestamp := now, expiresAt := now + ttl,
                 accessCount := 1 } := by
  have hperm : (c.mergeSort accessLE).Perm c := List.mergeSort_perm c accessLE
  have hlen : (c.mergeSort accessLE).length = c.length := List.length_mergeSort c
  have hk_le : limit * 2 / 10 ≤ c.length := le_trans (by omega) hcap
  have hnodupC : c.Nodup := hnd.of_map
  have hnodupS : (c.mergeSort accessLE).Nodup := hperm.nodup_iff.mpr hnodupC
  have hsplit : (c.mergeSort accessLE).take (limit * 2 / 10)
      ++ (c.mergeSort accessLE).drop (limit * 2 / 10) = c.mergeSort accessLE :=
    List.take_append_drop _ _
  obtain ⟨hndtake, hnddrop, hdisj⟩ :=
    List.nodup_append.mp (by rw [hsplit]; exact hnodupS)
  have hndmapS : ((c.mergeSort accessLE).map Prod.fst).Nodup :=
    ((hperm.map Prod.fst).nodup_iff).mpr hnd
  refine ⟨?_, ?_, ?_, ?_⟩
  · rw [List.length_take, hlen]
    exact Nat.min_eq_left hk_le
  · have hevict_eq : evict limit c
        = c.filter (fun q =>
            !(decide (q.1 ∈ ((c.mergeSort accessLE).take (limit * 2 / 10)).map
                Prod.fst))) := by
      unfold evict
      rw [if_pos hcap]
      exact foldl_mapDelete_eq_filter _ c
    have htake_nil : ((c.mergeSort accessLE).take (limit * 2 / 10)).filter
        (fun q =>
          !(decide (q.1 ∈ ((c.mergeSort accessLE).take (limit * 2 / 10)).map
              Prod.fst))) = [] := by
      refine List.filter_eq_nil_iff.mpr ?_
      intro q hq hcontra
      rw [Bool.not_eq_true', decide_eq_false_iff_not] at hcontra
      exact hcontra (List.mem_map_of_mem Prod.fst hq)
    have hdrop_self : ((c.mergeSort accessLE).drop (limit * 2 / 10)).filter
        (fun q =>
          !(decide (q.1 ∈ ((c.mergeSort accessLE).take (limit * 2 / 10)).map
              Prod.fst))) =
        (c.mergeSort accessLE).drop (limit * 2 / 10) := by
      refine List.filter_eq_self.mpr ?_
      intro q hq
      rw [Bool.not_eq_true', decide_eq_false_iff_not]
      intro hmem
      obtain ⟨e, he, hkey⟩ := List.mem_map.mp hmem
      have heS : e ∈ c.mergeSort accessLE := (List.take_sublist _ _).subset he
      have hqS : q ∈ c.mergeSort accessLE := (List.drop_sublist _ _).subset hq
      have : e = q := List.inj_on_of_nodup_map hndmapS heS hqS hkey
      exact hdisj (this ▸ he) hq
    have hfilter_sorted : (c.mergeSort accessLE).filter
        (fun q =>
          !(decide (q.1 ∈ ((c.mergeSort accessLE).take (limit * 2 / 10)).map
              Prod.fst))) =
        (c.mergeSort accessLE).drop (limit * 2 / 10) := by
      calc (c.mergeSort accessLE).filter _
          = (((c.mergeSort accessLE).take (limit * 2 / 10)
              ++ (c.mergeSort accessLE).drop (limit * 2 / 10)).filter
              (fun q =>
                !(decide (q.1 ∈ ((c.mergeSort accessLE).take
                    (limit * 2 / 10)).map Prod.fst)))) := by rw [hsplit]
        _ = (c.mergeSort accessLE).drop (limit * 2 / 10) := by
              rw [List.filter_append, htake_nil, hdrop_self, List.nil_append]
    rw [hevict_eq]
    exact hfilter_sorted ▸ (hperm.symm.filter _)
  · have hpairwise : List.Pairwise (fun a b => accessLE a b = true)
        (c.mergeSort accessLE) :=
      List.sorted_mergeSort accessLE_trans accessLE_total c
    have hcross := (List.pairwise_append.mp (by rw [hsplit]; exact hpairwise)).2.2
    intro e he s hs
    have hle : e.2.accessCount ≤ s.2.accessCount := by
      have := hcross e he s hs
      simpa [accessLE] using this
    rcases Nat.lt_or_ge e.2.accessCount s.2.accessCount with hlt | hge
    · exact Or.inl hlt
    · have heqac : e.2.accessCount = s.2.accessCount := le_antisymm hle hge
      refine Or.inr ⟨heqac, ?_⟩
      have hne : e ≠ s := fun h => hdisj he (h ▸ hs)
      have heC : e ∈ c := hperm.subset ((List.take_sublist _ _).subset he)
      have hsC : s ∈ c := hperm.subset ((List.drop_sublist _ _).subset hs)
      rcases pair_sublist_of_mem c e s heC hsC hne with h | h
      · exact h
      · exfalso
        have hse : accessLE s e = true := by
          simp only [accessLE, decide_eq_true_eq]
          omega
        have hsubS : [s, e].Sublist (c.mergeSort accessLE) :=
          List.pair_sublist_mergeSort accessLE_trans accessLE_total hse h
        have hsub2 : [s, e].Sublist
            ((c.mergeSort accessLE).take (limit * 2 / 10)
              ++ (c.mergeSort accessLE).drop (limit * 2 / 10)) := by
          rw [hsplit]; exact hsubS
        rcases List.sublist_append_iff.mp hsub2 with ⟨l₁, l₂, heq2, hsub₁, hsub₂⟩
        rcases l₁ with _ | ⟨x, l₁⟩
        · rw [List.nil_append] at heq2
          subst heq2
          exact hdisj he (hsub₂.subset (by simp))
        · rcases l₁ with _ | ⟨y, l₁⟩
          · obtain ⟨rfl, hl₂⟩ := List.cons_eq_cons.mp heq2
            subst hl₂
            exact hdisj he (hsub₂.subset (by simp))
          · obtain ⟨rfl, heq3⟩ := List.cons_eq_cons.mp heq2
            obtain ⟨rfl, heq4⟩ := List.cons_eq_cons.mp heq3
            exact hdisj (hsub₁.subset (by simp)) hs
  · unfold setCachedData
    exact mapGet_mapSet_self _ key _

/-- Witness for C8 at a concrete input: `cacheEx` holds five entries with
distinct keys and access counts [2, 1, 3, 1, 5]; at capacity limit 5 the
eviction quota is `⌊5 * 0.2⌋ = 1` and the stably sorted prefix of length 1
is the earliest-inserted count-1 entry ("b"). -/
theorem C8_capacity_eviction_w :
    ((cacheEx.map Prod.fst).Nodup ∧ 5 ≤ cacheEx.length)
    ∧ (((cacheEx.mergeSort accessLE).take (5 * 2 / 10)).length = 5 * 2 / 10
      ∧ (evict 5 cacheEx).Perm ((cacheEx.mergeSort accessLE).drop (5 * 2 / 10))
      ∧ (∀ e ∈ (cacheEx.mergeSort accessLE).take (5 * 2 / 10),
          ∀ s ∈ (cacheEx.mergeSort accessLE).drop (5 * 2 / 10),
            e.2.accessCount < s.2.accessCount
            ∨ (e.2.accessCount = s.2.accessCount ∧ [e, s].Sublist cacheEx))
      ∧ mapGet (setCachedData 0 5 100 cacheEx "f" (99 : Nat)) "f"
          = some { data := 99, timestamp := 0, expiresAt := 0 + 100,
                   accessCount := 1 }) :=
  ⟨⟨by decide, by decide⟩,
   C8_capacity_eviction 0 100 "f" 99 5 cacheEx (by decide) (by decide)⟩

end StockPortfolio
